import Mathlib

/-!
Verification of the MyPageIndex reasoning-based retrieval scripts
(`ask_document.py`, `ask_multiple_docs.py`) against their specification.

The scripts operate on JSON-decoded Python values (dicts, lists, strings,
numbers, booleans, None).  We embed those values as the inductive type
`Json` below: a Python dict is `Json.obj` with its fields in insertion
order, a Python list is `Json.arr`, and JSON `null` / Python `None` is
`Json.null`.  JSON numbers are modelled as integers (no claim depends on
float behaviour).  Python truthiness, equality (`==`), `str()` rendering,
`dict.get`, string slicing and `str.join` are each given explicit models
named `jsonTruthy`, `pyEq`, `pyStr`, `lookupJ`/`dGetD`, `pyTake`, `pyJoin`.

Oracle (LLM) calls are external; the flows are embedded as pure functions
parameterised by the oracle's already-delivered outputs (a `node_list`,
a selection answer, generated descriptions), while the JSON-parsing layer
around the structured rank/select responses is modelled separately
(`rank_parse`, `select_parse`) with `Except` for raised exceptions.
-/

/-- A JSON-decoded Python value.  `obj` keeps fields in insertion order,
as Python dicts do; keys produced by `json.loads` are unique. -/
inductive Json where
  | null : Json
  | bool : Bool → Json
  | num : Int → Json
  | str : String → Json
  | arr : List Json → Json
  | obj : List (String × Json) → Json

/-- First-occurrence lookup in a field list: `d[k]` / `k in d` on a
Python dict (keys unique after `json.loads`, so first occurrence is the
occurrence). -/
def lookupJ (k : String) : List (String × Json) → Option Json
  | [] => none
  | (k', v) :: rest => if k' == k then some v else lookupJ k rest

/-- Python truthiness of a JSON-decoded value: `None`, `False`, `0`,
`""`, `[]` and `\x7b\x7d` are falsy, everything else truthy. -/
def jsonTruthy : Json → Bool
  | .null => false
  | .bool b => b
  | .num n => !(n == 0)
  | .str s => !(s == "")
  | .arr [] => false
  | .arr (_ :: _) => true
  | .obj [] => false
  | .obj (_ :: _) => true

/-- Numeric view used by Python `==` (booleans compare equal to 0/1). -/
def pyNumView : Json → Option Int
  | .bool b => some (if b then 1 else 0)
  | .num n => some n
  | _ => none

mutual
/-- Python `==` on JSON-decoded values: `None == None`, numeric
comparison identifies `True`/`1` and `False`/`0`, strings and lists
compare elementwise, dicts compare by key set and per-key values
(order-insensitive; keys are unique after `json.loads`). -/
def pyEq : Json → Json → Bool
  | .null, .null => true
  | .str s, .str t => s == t
  | .arr xs, .arr ys => pyEqL xs ys
  | .obj fs, .obj gs => (fs.length == gs.length) && pyEqF fs gs
  | a, b =>
    match pyNumView a, pyNumView b with
    | some m, some n => m == n
    | _, _ => false

/-- Elementwise Python `==` on lists. -/
def pyEqL : List Json → List Json → Bool
  | [], [] => true
  | x :: xs, y :: ys => pyEq x y && pyEqL xs ys
  | _, _ => false

/-- Every field of the first dict is present and `==` in the second. -/
def pyEqF : List (String × Json) → List (String × Json) → Bool
  | [], _ => true
  | (k, v) :: rest, gs =>
    (match lookupJ k gs with
     | some w => pyEq v w
     | none => false) && pyEqF rest gs
end

/-- Python `x in list` membership test (uses `==`). -/
def pyIn (x : Json) : List Json → Bool
  | [] => false
  | y :: ys => pyEq x y || pyIn x ys

mutual
/-- Python `repr()` of a JSON-decoded value, as produced inside
f-strings for non-string values nested in containers.  String escaping
is simplified to plain single quotes (no claim depends on exotic
characters inside represented strings). -/
def pyRepr : Json → String
  | .null => "None"
  | .bool true => "True"
  | .bool false => "False"
  | .num n => toString n
  | .str s => "'" ++ s ++ "'"
  | .arr xs => "[" ++ pyReprL xs ++ "]"
  | .obj fs => "\x7b" ++ pyReprF fs ++ "\x7d"

/-- Comma-separated `repr` of list elements. -/
def pyReprL : List Json → String
  | [] => ""
  | [x] => pyRepr x
  | x :: y :: rest => pyRepr x ++ ", " ++ pyReprL (y :: rest)

/-- Comma-separated `repr` of dict entries. -/
def pyReprF : List (String × Json) → String
  | [] => ""
  | [(k, v)] => "'" ++ k ++ "': " ++ pyRepr v
  | (k, v) :: p :: rest => "'" ++ k ++ "': " ++ pyRepr v ++ ", " ++ pyReprF (p :: rest)
end

/-- Python `str()` as applied by an f-string: strings render verbatim,
other values via `repr`-style rendering. -/
def pyStr : Json → String
  | .str s => s
  | j => pyRepr j

/-- Python `sep.join(parts)`. -/
def pyJoin (sep : String) : List String → String
  | [] => ""
  | [x] => x
  | x :: y :: rest => x ++ sep ++ pyJoin sep (y :: rest)

/-- Python `s[:n]` on a string: the first `n` characters. -/
def pyTake (n : Nat) (s : String) : String := String.mk (s.data.take n)

/-- Python `node.get(k, dflt)` for a dict value; the call sites embedded
here only ever apply it to dict nodes (non-dicts would raise in Python
before reaching these expressions). -/
def dGetD (j : Json) (k : String) (dflt : Json) : Json :=
  match j with
  | .obj fs => (lookupJ k fs).getD dflt
  | _ => dflt

mutual
/-- The `remove_text` helper of `ask_document.py` and
`ask_multiple_docs.py`: rebuilds the value, dropping every dict entry
keyed `"text"` at every depth and recursing into dict values and list
elements; scalars are returned unchanged. -/
def remove_text : Json → Json
  | .obj fs => .obj (removeTextFields fs)
  | .arr xs => .arr (removeTextList xs)
  | .null => .null
  | .bool b => .bool b
  | .num n => .num n
  | .str s => .str s

/-- The dict comprehension `{k: remove_text(v) for k, v in obj.items() if k != 'text'}`. -/
def removeTextFields : List (String × Json) → List (String × Json)
  | [] => []
  | (k, v) :: rest =>
    if k == "text" then removeTextFields rest
    else (k, remove_text v) :: removeTextFields rest

/-- The list comprehension `[remove_text(item) for item in obj]`. -/
def removeTextList : List Json → List Json
  | [] => []
  | x :: xs => remove_text x :: removeTextList xs
end

mutual
/-- No dict entry keyed `"text"` occurs anywhere in the value. -/
def noText : Json → Bool
  | .obj fs => noTextF fs
  | .arr xs => noTextL xs
  | _ => true

/-- Predicate `noText` over dict fields. -/
def noTextF : List (String × Json) → Bool
  | [] => true
  | (k, v) :: rest => !(k == "text") && noText v && noTextF rest

/-- Predicate `noText` over list elements. -/
def noTextL : List Json → Bool
  | [] => true
  | x :: xs => noText x && noTextL xs
end

/-- Keys of a field list, in order. -/
def keysOf (fs : List (String × Json)) : List String := fs.map (fun p => p.1)

theorem sizeOf_lookupJ {k : String} {fs : List (String × Json)} {v : Json}
    (h : lookupJ k fs = some v) : sizeOf v < sizeOf fs := by
  induction fs with
  | nil => simp [lookupJ] at h
  | cons p rest ih =>
    obtain ⟨k', v'⟩ := p
    by_cases hk : (k' == k) = true
    · simp [lookupJ, hk] at h
      subst h
      simp
      omega
    · simp [lookupJ, hk] at h
      have := ih h
      simp
      omega

/-- The children a search visits for a node with field list `fs`:
the value of the `"nodes"` field when it is present and a list, and
nothing otherwise (Python's `'nodes' in node` guard; a well-formed tree
record stores a list there, see `wfForest`). -/
def childrenOf (fs : List (String × Json)) : List Json :=
  match lookupJ "nodes" fs with
  | some (.arr xs) => xs
  | _ => []

theorem sizeOf_childrenOf (fs : List (String × Json)) :
    sizeOf (childrenOf fs) ≤ sizeOf fs := by
  unfold childrenOf
  cases hl : lookupJ "nodes" fs with
  | none =>
    cases fs with
    | nil => simp
    | cons p rest => simp; omega
  | some v =>
    have hv := sizeOf_lookupJ hl
    cases v with
    | arr xs => simp at hv ⊢; omega
    | null => cases fs with
      | nil => simp
      | cons p rest => simp; omega
    | bool b => cases fs with
      | nil => simp
      | cons p rest => simp; omega
    | num n => cases fs with
      | nil => simp
      | cons p rest => simp; omega
    | str s => cases fs with
      | nil => simp
      | cons p rest => simp; omega
    | obj gs => cases fs with
      | nil => simp
      | cons p rest => simp; omega

/-- The `find_node_by_id` of `ask_multiple_docs.py` (the
`ask_document.py` copy is identical except that it omits the
`isinstance(node, dict)` guard, so on forests whose elements are all
mappings — the only forests it accepts without raising — the two
coincide): walk the list; for a dict node, return it if its
`node_id` field (`None` when absent) compares `==` to the target;
otherwise recurse into its `nodes` children, and — mirroring the
Python truthiness test `if found:` — propagate the recursive result
only when it is truthy (a non-empty dict); otherwise continue with the
remaining siblings.  Returns `none` (Python `None`) when the walk
finds nothing. -/
def find_node_by_id (node_id : Json) : List Json → Option Json
  | [] => none
  | n :: rest =>
    match n with
    | .obj fs =>
      if pyEq ((lookupJ "node_id" fs).getD .null) node_id then some (.obj fs)
      else
        match find_node_by_id node_id (childrenOf fs) with
        | some found =>
          if jsonTruthy found then some found else find_node_by_id node_id rest
        | none => find_node_by_id node_id rest
    | _ => find_node_by_id node_id rest
termination_by l => sizeOf l
decreasing_by
  all_goals first
    | (have h := sizeOf_childrenOf fs; simp; omega)
    | (simp; try omega)

/-- Depth-first preorder listing of the dict nodes of a forest: each
dict node followed by the preorder listing of its `nodes` children;
non-dict elements contribute nothing. -/
def preorder : List Json → List Json
  | [] => []
  | n :: rest =>
    match n with
    | .obj fs => .obj fs :: (preorder (childrenOf fs) ++ preorder rest)
    | _ => preorder rest
termination_by l => sizeOf l
decreasing_by
  all_goals first
    | (have h := sizeOf_childrenOf fs; simp; omega)
    | (simp; try omega)

/-- The `node_id` field a node is matched by: `node.get('node_id')`,
`None` when absent (non-dict values never appear in `preorder`). -/
def nodeIdOf : Json → Json
  | .obj fs => (lookupJ "node_id" fs).getD .null
  | _ => .null

mutual
/-- Well-formed forest: whenever a dict element carries a `"nodes"`
field, that field holds a list, recursively.  This is the domain on
which the embedding of the search is exact: in Python, a scalar
`"nodes"` value would raise `TypeError` instead. -/
def wfForest : List Json → Bool
  | [] => true
  | n :: rest => wfNode n && wfForest rest
termination_by l => sizeOf l

/-- Well-formedness of one forest element. -/
def wfNode : Json → Bool
  | .obj fs =>
    (match lookupJ "nodes" fs with
     | none => true
     | some (.arr _) => true
     | some _ => false) && wfForest (childrenOf fs)
  | _ => true
termination_by n => sizeOf n
decreasing_by
  all_goals (have h := sizeOf_childrenOf fs; simp; omega)
end

mutual
theorem noText_remove_text : ∀ j, noText (remove_text j) = true
  | .null => rfl
  | .bool _ => rfl
  | .num _ => rfl
  | .str _ => rfl
  | .arr xs => by
      simpa [remove_text, noText] using noTextL_removeTextList xs
  | .obj fs => by
      simpa [remove_text, noText] using noTextF_removeTextFields fs
termination_by j => sizeOf j

theorem noTextL_removeTextList : ∀ xs, noTextL (removeTextList xs) = true
  | [] => rfl
  | x :: xs => by
      simp only [removeTextList, noTextL, Bool.and_eq_true]
      exact ⟨noText_remove_text x, noTextL_removeTextList xs⟩
termination_by xs => sizeOf xs

theorem noTextF_removeTextFields : ∀ fs, noTextF (removeTextFields fs) = true
  | [] => rfl
  | (k, v) :: rest => by
      by_cases hk : (k == "text") = true
      · simp only [removeTextFields, hk, if_true]
        exact noTextF_removeTextFields rest
      · simp only [removeTextFields, hk, if_false, Bool.false_eq_true, noTextF,
          Bool.and_eq_true, Bool.not_eq_true']
        exact ⟨⟨trivial, noText_remove_text v⟩, noTextF_removeTextFields rest⟩
termination_by fs => sizeOf fs
end

mutual
theorem remove_text_of_noText : ∀ j, noText j = true → remove_text j = j
  | .null, _ => rfl
  | .bool _, _ => rfl
  | .num _, _ => rfl
  | .str _, _ => rfl
  | .arr xs, h => by
      simp only [noText] at h
      simp only [remove_text, removeTextList_of_noTextL xs h]
  | .obj fs, h => by
      simp only [noText] at h
      simp only [remove_text, removeTextFields_of_noTextF fs h]
termination_by j => sizeOf j

theorem removeTextList_of_noTextL : ∀ xs, noTextL xs = true → removeTextList xs = xs
  | [], _ => rfl
  | x :: xs, h => by
      simp only [noTextL, Bool.and_eq_true] at h
      simp only [removeTextList, remove_text_of_noText x h.1,
        removeTextList_of_noTextL xs h.2]
termination_by xs => sizeOf xs

theorem removeTextFields_of_noTextF :
    ∀ fs, noTextF fs = true → removeTextFields fs = fs
  | [], _ => rfl
  | (k, v) :: rest, h => by
      simp only [noTextF, Bool.and_eq_true, Bool.not_eq_true'] at h
      simp only [removeTextFields, h.1.1, if_false, Bool.false_eq_true,
        remove_text_of_noText v h.1.2, removeTextFields_of_noTextF rest h.2]
termination_by fs => sizeOf fs
end

theorem keysOf_removeTextFields (fs : List (String × Json)) :
    keysOf (removeTextFields fs) = (keysOf fs).filter (fun k => !(k == "text")) := by
  induction fs with
  | nil => rfl
  | cons p rest ih =>
    obtain ⟨k, v⟩ := p
    by_cases hk : (k == "text") = true
    · simp [removeTextFields, keysOf, hk] at ih ⊢
      exact ih
    · simp [removeTextFields, keysOf, hk] at ih ⊢
      exact ih

theorem lookupJ_removeTextFields (fs : List (String × Json)) (k : String)
    (hk : (k == "text") = false) :
    lookupJ k (removeTextFields fs) = (lookupJ k fs).map remove_text := by
  induction fs with
  | nil => rfl
  | cons p rest ih =>
    obtain ⟨k', v⟩ := p
    by_cases hk' : (k' == "text") = true
    · have hne : (k' == k) = false := by
        cases h : (k' == k) with
        | false => rfl
        | true =>
          have hkk : k' = k := by simpa using h
          rw [hkk] at hk'
          rw [hk'] at hk
          simp at hk
      simp [removeTextFields, lookupJ, hk', hne, ih]
    · by_cases he : (k' == k) = true
      · simp [removeTextFields, lookupJ, hk', he]
      · simp [removeTextFields, lookupJ, hk', he, ih]

theorem removeTextList_length (xs : List Json) :
    (removeTextList xs).length = xs.length := by
  induction xs with
  | nil => rfl
  | cons x xs ih => simp [removeTextList, ih]

theorem removeTextList_get (xs : List Json) (i : Nat) (h : i < xs.length)
    (h' : i < (removeTextList xs).length) :
    (removeTextList xs).get ⟨i, h'⟩ = remove_text (xs.get ⟨i, h⟩) := by
  induction xs generalizing i with
  | nil => simp at h
  | cons x xs ih =>
    cases i with
    | zero => rfl
    | succ n =>
      simp only [removeTextList, List.get_cons_succ]
      exact ih n (by simpa using h) (by simpa [removeTextList] using h')

theorem pyEq_null_true {x : Json} (h : pyEq .null x = true) : x = .null := by
  cases x <;> simp [pyEq, pyNumView] at h <;> rfl

theorem mem_preorder_obj {l : List Json} {x : Json} (hx : x ∈ preorder l) :
    ∃ fs, x = .obj fs := by
  induction l using preorder.induct with
  | case1 => simp [preorder] at hx
  | case2 rest fs ih1 ih2 =>
    rw [preorder] at hx
    rcases List.mem_cons.mp hx with h | h
    · exact ⟨fs, h⟩
    · rcases List.mem_append.mp h with h | h
      · exact ih1 h
      · exact ih2 h
  | case3 y rest hnot ih =>
    rw [preorder.eq_def] at hx
    cases y with
    | obj fs => exact absurd rfl (hnot fs)
    | null => exact ih hx
    | bool b => exact ih hx
    | num m => exact ih hx
    | str s => exact ih hx
    | arr xs => exact ih hx

/-- The match predicate of the preorder specification: the node's
`node_id` field compares `==` to the searched id. -/
def matchesId (node_id : Json) (n : Json) : Bool := pyEq (nodeIdOf n) node_id

theorem find_eq_preorder_find (node_id : Json) (hnull : node_id ≠ .null) :
    ∀ l : List Json,
      find_node_by_id node_id l = (preorder l).find? (matchesId node_id) := by
  intro l
  induction l using find_node_by_id.induct node_id with
  | case1 => simp [find_node_by_id, preorder]
  | case2 rest fs hmatch =>
    rw [find_node_by_id, preorder]
    simp only [List.find?_cons, matchesId, nodeIdOf, hmatch, if_true]
  | case3 rest fs hmatch w hw htr ih =>
    rw [find_node_by_id, preorder]
    simp only [hmatch, if_false, hw, htr, if_true, List.find?_cons,
      matchesId, nodeIdOf]
    rw [if_neg (by simpa using hmatch), List.find?_append, ← ih, hw]
    rfl
  | case4 rest fs hmatch w hw htr ih1 ih2 =>
    exfalso
    rw [ih1] at hw
    obtain ⟨gs, rfl⟩ := mem_preorder_obj (List.mem_of_find?_eq_some hw)
    have hpred := List.find?_some hw
    cases gs with
    | nil =>
      simp only [matchesId, nodeIdOf, lookupJ, Option.getD] at hpred
      exact hnull (pyEq_null_true hpred)
    | cons p gs => exact htr rfl
  | case5 rest fs hmatch hw ih1 ih2 =>
    rw [find_node_by_id, preorder]
    simp only [hmatch, if_false, hw, List.find?_cons, matchesId, nodeIdOf]
    rw [if_neg (by simpa using hmatch), List.find?_append, ← ih1, hw, ih2]
    rfl
  | case6 n rest hn ih =>
    rw [find_node_by_id.eq_def, preorder.eq_def]
    cases n with
    | obj fs => exact absurd rfl (hn fs)
    | null => exact ih
    | bool b => exact ih
    | num m => exact ih
    | str s => exact ih
    | arr xs => exact ih

/-- Last step of the `get_node_text` fallback chain:
`return node.get('title', '')`. -/
def titleFallback (fs : List (String × Json)) : Json :=
  (lookupJ "title" fs).getD (.str "")

/-- Middle step of the `get_node_text` fallback chain: when the
`summary` field is present and truthy, the f-string
`f"【\x7bnode.get('title', 'Untitled')\x7d】\n\x7bnode['summary']\x7d"`;
otherwise fall through to the title. -/
def summaryFallback (fs : List (String × Json)) : Json :=
  match lookupJ "summary" fs with
  | some s =>
    if jsonTruthy s then
      .str ("【" ++ pyStr ((lookupJ "title" fs).getD (.str "Untitled")) ++ "】\n" ++ pyStr s)
    else titleFallback fs
  | none => titleFallback fs

/-- The `get_node_text` of both scripts: return `node['text']` when the
field is present and truthy; else the summary-formatted string when
`summary` is present and truthy; else `node.get('title', '')`.  The
call sites only apply it to dict nodes returned by `find_node_by_id`
(a non-dict argument would raise in Python before these tests run). -/
def get_node_text (node : Json) : Json :=
  match node with
  | .obj fs =>
    (match lookupJ "text" fs with
     | some t => if jsonTruthy t then t else summaryFallback fs
     | none => summaryFallback fs)
  | _ => .str ""

/-- The item string `ask_document.py` appends for a resolved node:
`f"## \x7bnode.get('title', 'Untitled')\x7d\n\n\x7btext\x7d"`. -/
def fmtItem (node : Json) (text : Json) : String :=
  "## " ++ pyStr (dGetD node "title" (.str "Untitled")) ++ "\n\n" ++ pyStr text

/-- The contribution of one oracle-listed id to the single-document
extraction loop: the formatted item when the id resolves to a truthy
node carrying truthy resolved text, nothing otherwise. -/
def itemFor (tree : List Json) (node_id : Json) : Option String :=
  match find_node_by_id node_id tree with
  | some node =>
    if jsonTruthy node then
      if jsonTruthy (get_node_text node) then some (fmtItem node (get_node_text node))
      else none
    else none
  | none => none

/-- The extraction loop of `ask_document.py` (step 2): for each id of
the oracle's `node_list` in order, look the node up, skip silently when
the lookup fails (Python `if node:`) or the resolved text is falsy, and
otherwise append the formatted item. -/
def retrieve_loop (tree : List Json) : List Json → List String
  | [] => []
  | node_id :: rest =>
    match find_node_by_id node_id tree with
    | some node =>
      if jsonTruthy node then
        if jsonTruthy (get_node_text node) then
          fmtItem node (get_node_text node) :: retrieve_loop tree rest
        else retrieve_loop tree rest
      else retrieve_loop tree rest
    | none => retrieve_loop tree rest

/-- The joined context `relevant_content = "\n\n".join(relevant_texts)` of `ask_document.py`. -/
def singleContext (tree : List Json) (node_list : List Json) : String :=
  pyJoin "\n\n" (retrieve_loop tree node_list)

/-- Terminal state of the single-document flow after extraction:
either the fixed "未找到相关内容" result with no synthesis call, or a
synthesis oracle call issued on the assembled context. -/
inductive SingleOutcome where
  | noContent : SingleOutcome
  | synthesized : String → SingleOutcome
deriving DecidableEq

/-- Steps 2–3 of `ask_document.py` after the rank response is parsed:
build the items from the oracle's `node_list`, join them, and either
short-circuit on an empty joined context (`if not relevant_content:`)
or issue the synthesis call on it. -/
def ask_document_run (tree : List Json) (node_list : List Json) : SingleOutcome :=
  let content := singleContext tree node_list
  if content == "" then .noContent else .synthesized content

/-- A loaded document record as built by `load_all_trees` in
`ask_multiple_docs.py`: name (from the file name), tree, description
(the JSON value stored in the record, `""` when absent) and backing
file path. -/
structure PDoc where
  doc_name : String
  tree : List Json
  doc_description : Json
  json_file : String

/-- One entry of `all_relevant_content` in `ask_multiple_docs.py`. -/
structure RItem where
  doc_name : String
  node_title : Json
  text : Json

/-- Step 2 of `ask_multiple_docs.py`: for each document in order, if
its description is falsy (`if not doc.get('doc_description'):`) attach
the generated one (`generate_doc_description` output, a string) to that
record; every other field and every other record is untouched.
`descOf` stands for the external description oracle, a function of the
document's tree (the only argument the code passes). -/
def ensure_descriptions (descOf : List Json → String) : List PDoc → List PDoc
  | [] => []
  | d :: rest =>
    (if jsonTruthy d.doc_description then d
     else { d with doc_description := .str (descOf d.tree) }) :: ensure_descriptions descOf rest

/-- The contribution of one oracle-listed id to a document's extraction
loop in `ask_multiple_docs.py` (step 4 body). -/
def itemForDoc (d : PDoc) (node_id : Json) : Option RItem :=
  match find_node_by_id node_id d.tree with
  | some node =>
    if jsonTruthy node then
      if jsonTruthy (get_node_text node) then
        some { doc_name := d.doc_name,
               node_title := dGetD node "title" (.str "Untitled"),
               text := get_node_text node }
      else none
    else none
  | none => none

/-- The per-document extraction loop of `ask_multiple_docs.py` step 4:
iterate the rank oracle's `node_list` for this document in order,
skipping unresolved ids (`if node:`) and falsy resolved texts, and
collect `\x7bdoc_name, node_title, text\x7d` records with the
untruncated resolved text. -/
def perDocItems (d : PDoc) : List Json → List RItem
  | [] => []
  | node_id :: rest =>
    match find_node_by_id node_id d.tree with
    | some node =>
      if jsonTruthy node then
        if jsonTruthy (get_node_text node) then
          { doc_name := d.doc_name,
            node_title := dGetD node "title" (.str "Untitled"),
            text := get_node_text node } :: perDocItems d rest
        else perDocItems d rest
      else perDocItems d rest
    | none => perDocItems d rest

/-- The documents the step-4 loop searches: those loaded documents, in
load order, whose `doc_name` occurs (Python `in`, i.e. `==` against
each element) in the selector's `answer` list. -/
def searched_docs (names : List Json) : List PDoc → List PDoc
  | [] => []
  | d :: rest =>
    if pyIn (.str d.doc_name) names then d :: searched_docs names rest
    else searched_docs names rest

/-- Step 4 of `ask_multiple_docs.py`: for each loaded document whose
name is in the selector's answer, issue the per-document rank call and
extract its items; concatenate in document load order.  `rank` stands
for the external rank oracle, giving the parsed `node_list` of the
response for a document name. -/
def multi_retrieve (rank : String → List Json) (names : List Json) : List PDoc → List RItem
  | [] => []
  | d :: rest =>
    (if pyIn (.str d.doc_name) names then perDocItems d (rank d.doc_name) else [])
      ++ multi_retrieve rank names rest

/-- Python `item['text'][:500]` as used at context-assembly time:
character slicing for strings (and element slicing for lists, rendered
by the f-string); other values would raise `TypeError` in Python and
the theorems below only constrain the string case. -/
def slice500 : Json → String
  | .str s => pyTake 500 s
  | .arr xs => pyRepr (.arr (xs.take 500))
  | j => pyStr j

/-- The fixed label text in front of one context section. -/
def partHead (it : RItem) : String :=
  "### 来自文档《" ++ it.doc_name ++ "》的【" ++ pyStr it.node_title ++ "】:\n"

/-- One element of `context_parts` in step 5 of `ask_multiple_docs.py`:
the labelled section with the item text truncated to 500 characters and
a literal ellipsis appended. -/
def contextPart (it : RItem) : String :=
  partHead it ++ slice500 it.text ++ "..."

/-- The joined context `relevant_content = "\n\n".join(context_parts)` of step 5. -/
def multiContext (items : List RItem) : String :=
  pyJoin "\n\n" (items.map contextPart)

/-- Terminal state of the multi-document flow: no document selected
(empty selector answer), no relevant content (empty item list), or a
synthesis oracle call issued on the assembled context. -/
inductive MultiOutcome where
  | noDocsSelected : MultiOutcome
  | noContent : MultiOutcome
  | synthesized : String → MultiOutcome
deriving DecidableEq

/-- Whether a terminal state issued the synthesis oracle call. -/
def issuesSynthesis : MultiOutcome → Bool
  | .synthesized _ => true
  | _ => false

/-- Steps 2–5 of `ask_multiple_docs.py` after the selection response is
parsed: attach missing descriptions, stop if the selector answered with
an empty list (`if not selected_doc_names:`), retrieve from the
selected documents, stop if nothing resolved
(`if not all_relevant_content:`), otherwise issue the synthesis call on
the assembled context.  Returns the final document records alongside
the outcome; the records are only ever touched by the description
step. -/
def ask_multiple_run (descOf : List Json → String) (names : List Json)
    (rank : String → List Json) (docs : List PDoc) : List PDoc × MultiOutcome :=
  let docs2 := ensure_descriptions descOf docs
  match names with
  | [] => (docs2, .noDocsSelected)
  | _ :: _ =>
    match multi_retrieve rank names docs2 with
    | [] => (docs2, .noContent)
    | _ :: _ => (docs2, .synthesized (multiContext (multi_retrieve rank names docs2)))

/-- Python `obj.get(k, dflt)` where `obj` is an arbitrary decoded
value: on a dict it returns the field or the default, on anything else
it raises `AttributeError`. -/
def pyGetOrRaise (j : Json) (k : String) (dflt : Json) : Except String Json :=
  match j with
  | .obj fs => .ok ((lookupJ k fs).getD dflt)
  | _ => .error "AttributeError"

/-- The parsing layer around the rank oracle call
(`search_json = json.loads(search_result)` followed by
`search_json.get('node_list', [])`).  The raw oracle response is
modelled at the `json.loads` boundary: `none` stands for a response
that is not parseable JSON (the call raises `JSONDecodeError`), `some
j` for a response decoding to `j`.  No exception handler exists in the
scripts, so an `error` value is a propagated, run-aborting failure. -/
def rank_parse (raw : Option Json) : Except String Json :=
  match raw with
  | none => .error "JSONDecodeError"
  | some j => pyGetOrRaise j "node_list" (.arr [])

/-- The parsing layer around the select oracle call
(`json.loads(response)` in `select_documents`, then
`selection_result.get('answer', [])` in the caller). -/
def select_parse (raw : Option Json) : Except String Json :=
  match raw with
  | none => .error "JSONDecodeError"
  | some j => pyGetOrRaise j "answer" (.arr [])

theorem str_empty_append (s : String) : "" ++ s = s :=
  String.ext (by simp [String.data_append])

theorem retrieve_loop_eq_filterMap (tree l : List Json) :
    retrieve_loop tree l = l.filterMap (itemFor tree) := by
  induction l with
  | nil => rfl
  | cons id rest ih =>
    cases hf : find_node_by_id id tree with
    | none => simp [retrieve_loop, List.filterMap_cons, itemFor, hf, ih]
    | some node =>
      by_cases h1 : jsonTruthy node = true
      · by_cases h2 : jsonTruthy (get_node_text node) = true
        · simp [retrieve_loop, List.filterMap_cons, itemFor, hf, h1, h2, ih]
        · simp [retrieve_loop, List.filterMap_cons, itemFor, hf, h1, h2, ih]
      · simp [retrieve_loop, List.filterMap_cons, itemFor, hf, h1, ih]

theorem retrieve_loop_append (tree l1 l2 : List Json) :
    retrieve_loop tree (l1 ++ l2) = retrieve_loop tree l1 ++ retrieve_loop tree l2 := by
  simp [retrieve_loop_eq_filterMap, List.filterMap_append]

theorem perDocItems_eq_filterMap (d : PDoc) (l : List Json) :
    perDocItems d l = l.filterMap (itemForDoc d) := by
  induction l with
  | nil => rfl
  | cons id rest ih =>
    cases hf : find_node_by_id id d.tree with
    | none => simp [perDocItems, List.filterMap_cons, itemForDoc, hf, ih]
    | some node =>
      by_cases h1 : jsonTruthy node = true
      · by_cases h2 : jsonTruthy (get_node_text node) = true
        · simp [perDocItems, List.filterMap_cons, itemForDoc, hf, h1, h2, ih]
        · simp [perDocItems, List.filterMap_cons, itemForDoc, hf, h1, h2, ih]
      · simp [perDocItems, List.filterMap_cons, itemForDoc, hf, h1, ih]

theorem searched_docs_eq_filter (names : List Json) (docs : List PDoc) :
    searched_docs names docs = docs.filter (fun d => pyIn (.str d.doc_name) names) := by
  induction docs with
  | nil => rfl
  | cons d rest ih =>
    rw [searched_docs, List.filter_cons]
    by_cases h : pyIn (.str d.doc_name) names = true
    · simp [h, ih]
    · simp [h, ih]

theorem multi_retrieve_eq (rank : String → List Json) (names : List Json)
    (docs : List PDoc) :
    multi_retrieve rank names docs =
      ((searched_docs names docs).map (fun d => perDocItems d (rank d.doc_name))).flatten := by
  induction docs with
  | nil => rfl
  | cons d rest ih =>
    rw [multi_retrieve, searched_docs]
    by_cases h : pyIn (.str d.doc_name) names = true
    · simp [h, ih]
    · simp [h, ih]

theorem mem_multi_retrieve {rank : String → List Json} {names : List Json}
    {docs : List PDoc} {it : RItem} (h : it ∈ multi_retrieve rank names docs) :
    ∃ d, d ∈ docs ∧ pyIn (.str d.doc_name) names = true ∧
      it ∈ perDocItems d (rank d.doc_name) := by
  rw [multi_retrieve_eq, List.mem_flatten] at h
  obtain ⟨l, hl, hit⟩ := h
  rw [List.mem_map] at hl
  obtain ⟨d, hd, rfl⟩ := hl
  rw [searched_docs_eq_filter, List.mem_filter] at hd
  exact ⟨d, hd.1, hd.2, hit⟩

theorem itemForDoc_inv {d : PDoc} {id : Json} {it : RItem}
    (h : itemForDoc d id = some it) :
    ∃ node, find_node_by_id id d.tree = some node ∧ jsonTruthy node = true ∧
      jsonTruthy (get_node_text node) = true ∧
      it = { doc_name := d.doc_name,
             node_title := dGetD node "title" (.str "Untitled"),
             text := get_node_text node } := by
  unfold itemForDoc at h
  cases hf : find_node_by_id id d.tree with
  | none => rw [hf] at h; simp at h
  | some node =>
    rw [hf] at h
    by_cases h1 : jsonTruthy node = true
    · by_cases h2 : jsonTruthy (get_node_text node) = true
      · simp only [h1, h2, if_true] at h
        exact ⟨node, rfl, h1, h2, (Option.some_inj.mp h).symm⟩
      · simp [h1, h2] at h
    · simp [h1] at h

theorem pyJoin_of_mem {x : String} {l : List String} (hx : x ∈ l) (sep : String) :
    ∃ a b, pyJoin sep l = a ++ x ++ b := by
  induction l with
  | nil => simp at hx
  | cons y ys ih =>
    rcases List.mem_cons.mp hx with rfl | hmem
    · cases ys with
      | nil => exact ⟨"", "", by simp [pyJoin, str_empty_append]⟩
      | cons z zs =>
        refine ⟨"", sep ++ pyJoin sep (z :: zs), ?_⟩
        rw [pyJoin, str_empty_append, String.append_assoc]
    · obtain ⟨a, b, hab⟩ := ih hmem
      cases ys with
      | nil => simp at hmem
      | cons z zs =>
        refine ⟨y ++ sep ++ a, b, ?_⟩
        rw [pyJoin, hab]
        simp [String.append_assoc]

/-- Substring containment: `piece` occurs contiguously inside `hay`. -/
def containsSub (hay piece : String) : Prop := ∃ a b, hay = a ++ piece ++ b

theorem str_head_ne_empty (a b : String) (h : a.data ≠ []) : a ++ b ≠ "" := by
  intro he
  have hd : a.data ++ b.data = [] := by
    simpa [String.data_append] using congrArg String.data he
  exact h (List.append_eq_nil.mp hd).1

/-- C1: the single-document extraction step (and the per-document copy
of it in the multi-document flow) emits items by mapping the oracle's
`node_list` in order through a per-id resolver (`List.filterMap`), so
the output order is exactly the oracle order with duplicates kept and
nothing re-ranked; ids whose lookup fails contribute nothing and raise
nothing; and when no id resolves to a truthy text the result is the
empty list, a non-error value. -/
theorem C1_retrieve_mirrors_oracle_order :
    ∀ (tree node_list : List Json) (d : PDoc),
      retrieve_loop tree node_list = node_list.filterMap (itemFor tree) ∧
      (∀ l1 l2 : List Json,
        retrieve_loop tree (l1 ++ l2) = retrieve_loop tree l1 ++ retrieve_loop tree l2) ∧
      (∀ id, find_node_by_id id tree = none → itemFor tree id = none) ∧
      ((∀ id, id ∈ node_list → itemFor tree id = none) → retrieve_loop tree node_list = []) ∧
      perDocItems d node_list = node_list.filterMap (itemForDoc d) ∧
      ((∀ id, id ∈ node_list → itemForDoc d id = none) → perDocItems d node_list = []) := by
  intro tree node_list d
  refine ⟨retrieve_loop_eq_filterMap tree node_list, retrieve_loop_append tree, ?_, ?_, perDocItems_eq_filterMap d node_list, ?_⟩
  · intro id h
    simp [itemFor, h]
  · intro h
    rw [retrieve_loop_eq_filterMap]
    exact List.filterMap_eq_nil.mpr h
  · intro h
    rw [perDocItems_eq_filterMap]
    exact List.filterMap_eq_nil.mpr h

/-- Scenario-A/B-style tree used to witness C1 concretely. -/
def w1Tree : List Json :=
  [Json.obj [("node_id", .str "1"), ("title", .str "Intro"),
             ("text", .str "Paris is the capital of France.")]]

theorem C1_witness :
    retrieve_loop w1Tree [Json.str "1", Json.str "99", Json.str "1"] =
      [Json.str "1", Json.str "99", Json.str "1"].filterMap (itemFor w1Tree) ∧
    retrieve_loop w1Tree [Json.str "99"] = [] := by
  constructor
  · exact (C1_retrieve_mirrors_oracle_order w1Tree
      [Json.str "1", Json.str "99", Json.str "1"]
      ⟨"d", [], .str "", ""⟩).1
  · refine (C1_retrieve_mirrors_oracle_order w1Tree [Json.str "99"]
      ⟨"d", [], .str "", ""⟩).2.2.2.1 ?_
    intro id hid
    rcases List.mem_singleton.mp hid with rfl
    have hfind : find_node_by_id (Json.str "99") w1Tree = none := by
      simp [find_node_by_id, w1Tree, childrenOf, lookupJ, pyEq, pyNumView]
    simp [itemFor, hfind]

/-- C2: the pruning transform (`remove_text`) leaves no `text` key at
any depth of its output; it is the identity on values that carry no
`text` key anywhere (so nothing but `text` entries is changed); on
lists it preserves length and maps elements in place (shape, order and
count); on mappings it keeps every non-`text` field under its key with
its order preserved, only recursing into the value.  The Python
function builds fresh dicts and lists via comprehensions, so the input
is not mutated; the transform here is a pure function of its input. -/
theorem C2_prune_removes_only_text :
    ∀ (j : Json) (xs : List Json) (fs : List (String × Json)) (k : String),
      noText (remove_text j) = true ∧
      (noText j = true → remove_text j = j) ∧
      remove_text (.arr xs) = .arr (removeTextList xs) ∧
      (removeTextList xs).length = xs.length ∧
      (∀ (i : Nat) (h : i < xs.length) (h' : i < (removeTextList xs).length),
        (removeTextList xs).get ⟨i, h'⟩ = remove_text (xs.get ⟨i, h⟩)) ∧
      keysOf (removeTextFields fs) = (keysOf fs).filter (fun k' => !(k' == "text")) ∧
      ((k == "text") = false →
        lookupJ k (removeTextFields fs) = (lookupJ k fs).map remove_text) := by
  intro j xs fs k
  exact ⟨noText_remove_text j, remove_text_of_noText j, rfl, removeTextList_length xs,
    fun i h h' => removeTextList_get xs i h h', keysOf_removeTextFields fs,
    fun hk => lookupJ_removeTextFields fs k hk⟩

theorem C2_witness :
    remove_text (Json.obj [("title", .str "T"), ("summary", .str "S")]) =
      Json.obj [("title", .str "T"), ("summary", .str "S")] ∧
    lookupJ "summary" (removeTextFields [("text", .str "B"), ("summary", .str "S")]) =
      some (.str "S") := by
  constructor
  · exact (C2_prune_removes_only_text
      (Json.obj [("title", .str "T"), ("summary", .str "S")]) [] [] "x").2.1
      (by simp [noText, noTextF])
  · have h := (C2_prune_removes_only_text .null [] [("text", .str "B"), ("summary", .str "S")]
      "summary").2.2.2.2.2.2 (by decide)
    rw [h]
    simp [lookupJ, remove_text]

/-- C3: the `get_node_text` fallback chain.  (1) A non-empty string
`text` field is returned verbatim whatever the other fields hold.
(2) When `text` is absent or falsy and `summary` is a non-empty string,
the result is a formatted string that contains the summary and the
node's title (when present as a string; an absent title renders as
`Untitled`), and that string is never empty.  (3) When both are absent
or falsy the result is `node.get('title', '')`, which may be empty. -/
theorem C3_resolve_text_fallback_chain :
    ∀ fs : List (String × Json),
      (∀ t, lookupJ "text" fs = some (.str t) → t ≠ "" →
        get_node_text (.obj fs) = .str t) ∧
      ((∀ v, lookupJ "text" fs = some v → jsonTruthy v = false) →
        ∀ s, lookupJ "summary" fs = some (.str s) → s ≠ "" →
          ∃ out, get_node_text (.obj fs) = .str out ∧ out ≠ "" ∧ containsSub out s ∧
            (∀ ttl, lookupJ "title" fs = some (.str ttl) → containsSub out ttl)) ∧
      ((∀ v, lookupJ "text" fs = some v → jsonTruthy v = false) →
       (∀ v, lookupJ "summary" fs = some v → jsonTruthy v = false) →
        get_node_text (.obj fs) = (lookupJ "title" fs).getD (.str "")) := by
  intro fs
  refine ⟨?_, ?_, ?_⟩
  · intro t ht hne
    have htr : jsonTruthy (.str t) = true := by simp [jsonTruthy, hne]
    simp [get_node_text, ht, htr]
  · intro htext s hs hsne
    have hfall : get_node_text (.obj fs) = summaryFallback fs := by
      cases hT : lookupJ "text" fs with
      | none => simp [get_node_text, hT]
      | some v => simp [get_node_text, hT, htext v hT]
    have hstr : jsonTruthy (.str s) = true := by simp [jsonTruthy, hsne]
    refine ⟨"【" ++ pyStr ((lookupJ "title" fs).getD (.str "Untitled")) ++ "】\n" ++ s, ?_, ?_, ?_, ?_⟩
    · rw [hfall, summaryFallback, hs]
      simp [hstr, pyStr]
    · exact str_head_ne_empty "【" _ (by decide)
    · exact ⟨"【" ++ pyStr ((lookupJ "title" fs).getD (.str "Untitled")) ++ "】\n", "",
        by rw [String.append_empty]⟩
    · intro ttl httl
      refine ⟨"【", "】\n" ++ s, ?_⟩
      rw [httl]
      simp only [Option.getD, pyStr]
      rw [String.append_assoc ("【" ++ ttl) "】\n" s, String.append_assoc "【" ttl ("】\n" ++ s)]
  · intro htext hsum
    have hfall : get_node_text (.obj fs) = summaryFallback fs := by
      cases hT : lookupJ "text" fs with
      | none => simp [get_node_text, hT]
      | some v => simp [get_node_text, hT, htext v hT]
    rw [hfall, summaryFallback]
    cases hS : lookupJ "summary" fs with
    | none => rfl
    | some v => simp [hsum v hS, titleFallback]

/-- Scenario-C node: empty `text`, non-empty `summary`. -/
def w3Fields : List (String × Json) :=
  [("title", .str "Geography"), ("text", .str ""), ("summary", .str "Overview of geography")]

theorem C3_witness :
    ∃ out, get_node_text (.obj w3Fields) = .str out ∧ out ≠ "" ∧
      containsSub out "Overview of geography" ∧
      (∀ ttl, lookupJ "title" w3Fields = some (.str ttl) → containsSub out ttl) := by
  exact (C3_resolve_text_fallback_chain w3Fields).2.1
    (by intro v hv; rw [show v = Json.str "" from (by simpa [w3Fields, lookupJ] using hv : Json.str "" = v).symm]; rfl)
    "Overview of geography" (by simp [w3Fields, lookupJ]) (by decide)

/-- C4 (amended): for every well-formed forest and every searched id
other than JSON `null`, `find_node_by_id` returns exactly the first
node in depth-first preorder whose `node_id` field compares `==` to the
id, and `none` when no node matches.  The amendment excludes a `null`
search id: there a matching empty mapping found inside a nested subtree
is falsy, so the Python `if found:` test drops it and the search can
return a later preorder match instead (see the counterexample).  The
well-formedness hypothesis scopes the statement to forests whose
`nodes` fields hold lists, the domain on which the embedding is exact
(elsewhere the Python code raises instead of returning). -/
theorem C4_find_first_preorder_match (node_id : Json) (forest : List Json)
    (hwf : wfForest forest = true) (hnull : node_id ≠ .null) :
    find_node_by_id node_id forest = (preorder forest).find? (matchesId node_id) :=
  find_eq_preorder_find node_id hnull forest

/-- Two-level forest used to witness C4. -/
def w4Forest : List Json :=
  [Json.obj [("node_id", .str "a"),
             ("nodes", .arr [Json.obj [("node_id", .str "b"), ("title", .str "child")]])]]

theorem C4_witness :
    find_node_by_id (.str "b") w4Forest =
      (preorder w4Forest).find? (matchesId (.str "b")) :=
  C4_find_first_preorder_match (.str "b") w4Forest
    (by simp [w4Forest, wfForest, wfNode, childrenOf, lookupJ])
    (by simp)

/-- Forest on which the claim as stated fails for a `null` search id:
the empty mapping nested under the first root is the first preorder
match (its absent `node_id` reads as `None`), but being falsy it is
dropped by `if found:` and the later root is returned instead. -/
def c4Forest : List Json :=
  [Json.obj [("node_id", .str "a"), ("nodes", .arr [Json.obj []])],
   Json.obj [("node_id", .null), ("title", .str "B")]]

theorem C4_counterexample :
    find_node_by_id Json.null c4Forest =
      some (Json.obj [("node_id", Json.null), ("title", Json.str "B")]) ∧
    (preorder c4Forest).find? (matchesId Json.null) = some (Json.obj []) ∧
    find_node_by_id Json.null c4Forest ≠
      (preorder c4Forest).find? (matchesId Json.null) := by
  have h1 : find_node_by_id Json.null c4Forest =
      some (Json.obj [("node_id", Json.null), ("title", Json.str "B")]) := by
    simp [c4Forest, find_node_by_id, childrenOf, lookupJ, pyEq, pyNumView, jsonTruthy]
  have h2 : (preorder c4Forest).find? (matchesId Json.null) = some (Json.obj []) := by
    simp [c4Forest, preorder, childrenOf, lookupJ, List.find?, matchesId, nodeIdOf,
      pyEq, pyNumView]
  refine ⟨h1, h2, ?_⟩
  rw [h1, h2]
  simp

/-- C6 (amended): an unparseable rank/select response is a raised,
propagated `JSONDecodeError` with no fallback, and a parseable response
that is not a mapping raises `AttributeError` at the following `.get`;
but a parseable mapping that merely lacks the required field
(`node_list` for rank, `answer` for select) is NOT a parse error: the
code reads it best-effort via `.get(field, [])`, silently substituting
the empty list, which flows into the ordinary "nothing found" path. -/
theorem C6_parse_failure_amended :
    rank_parse none = .error "JSONDecodeError" ∧
    select_parse none = .error "JSONDecodeError" ∧
    (∀ j : Json, (∀ fs, j ≠ .obj fs) →
      rank_parse (some j) = .error "AttributeError" ∧
      select_parse (some j) = .error "AttributeError") ∧
    (∀ fs, lookupJ "node_list" fs = none → rank_parse (some (.obj fs)) = .ok (.arr [])) ∧
    (∀ fs, lookupJ "answer" fs = none → select_parse (some (.obj fs)) = .ok (.arr [])) := by
  refine ⟨rfl, rfl, ?_, ?_, ?_⟩
  · intro j hj
    cases j with
    | obj fs => exact absurd rfl (hj fs)
    | null => exact ⟨rfl, rfl⟩
    | bool b => exact ⟨rfl, rfl⟩
    | num n => exact ⟨rfl, rfl⟩
    | str s => exact ⟨rfl, rfl⟩
    | arr xs => exact ⟨rfl, rfl⟩
  · intro fs h
    simp [rank_parse, pyGetOrRaise, h]
  · intro fs h
    simp [select_parse, pyGetOrRaise, h]

theorem C6_witness :
    rank_parse (some (.arr [])) = .error "AttributeError" ∧
    rank_parse (some (.obj [("thinking", .str "t")])) = .ok (.arr []) ∧
    select_parse (some (.obj [])) = .ok (.arr []) :=
  ⟨(C6_parse_failure_amended.2.2.1 (.arr []) (fun fs h => Json.noConfusion h)).1,
   C6_parse_failure_amended.2.2.2.1 [("thinking", .str "t")] rfl,
   C6_parse_failure_amended.2.2.2.2 [] rfl⟩

/-- C6 counterexample: a perfectly parseable mapping that is missing
the required field is read best-effort as the empty list — the claimed
parse error never occurs. -/
theorem C6_counterexample :
    rank_parse (some (.obj [("thinking", .str "nodes about geography")])) = .ok (.arr []) ∧
    select_parse (some (.obj [("thinking", .str "docB looks relevant")])) = .ok (.arr []) ∧
    (∀ e, rank_parse (some (.obj [("thinking", .str "nodes about geography")])) ≠ .error e) := by
  refine ⟨rfl, rfl, ?_⟩
  intro e h
  rw [show rank_parse (some (.obj [("thinking", .str "nodes about geography")])) =
    Except.ok (Json.arr []) from rfl] at h
  exact Except.noConfusion h

/-- C8: in the single-document flow an empty extraction result joins to
the empty string, so `if not relevant_content:` short-circuits to the
fixed no-content message before the synthesis prompt exists; in the
multi-document flow an empty item list (and likewise an empty selector
answer) returns before step 5, so the synthesis oracle call is never
issued on empty items. -/
theorem C8_no_synthesis_on_empty :
    (∀ tree node_list : List Json, retrieve_loop tree node_list = [] →
      ask_document_run tree node_list = .noContent) ∧
    (∀ (descOf : List Json → String) (names : List Json) (rank : String → List Json)
       (docs : List PDoc),
      multi_retrieve rank names (ensure_descriptions descOf docs) = [] →
      issuesSynthesis (ask_multiple_run descOf names rank docs).2 = false) := by
  constructor
  · intro tree node_list h
    simp [ask_document_run, singleContext, h, pyJoin]
  · intro descOf names rank docs h
    cases names with
    | nil => rfl
    | cons n ns =>
      simp only [ask_multiple_run, h]
      rfl

theorem C8_witness :
    ask_document_run w1Tree [Json.str "99"] = SingleOutcome.noContent ∧
    issuesSynthesis (ask_multiple_run (fun _ => "d") [Json.str "docA"] (fun _ => [])
      [⟨"docA", w1Tree, .str "x", "f"⟩]).2 = false := by
  constructor
  · apply C8_no_synthesis_on_empty.1
    have hfind : find_node_by_id (Json.str "99") w1Tree = none := by
      simp [find_node_by_id, w1Tree, childrenOf, lookupJ, pyEq, pyNumView]
    simp [retrieve_loop, hfind]
  · apply C8_no_synthesis_on_empty.2
    simp [ensure_descriptions, multi_retrieve, perDocItems]

theorem ensure_descriptions_length (descOf : List Json → String) (docs : List PDoc) :
    (ensure_descriptions descOf docs).length = docs.length := by
  induction docs with
  | nil => rfl
  | cons d rest ih => simp [ensure_descriptions, ih]

theorem ensure_descriptions_get (descOf : List Json → String) (docs : List PDoc)
    (i : Nat) (h : i < docs.length) (h' : i < (ensure_descriptions descOf docs).length) :
    ((ensure_descriptions descOf docs).get ⟨i, h'⟩).doc_name = (docs.get ⟨i, h⟩).doc_name ∧
    ((ensure_descriptions descOf docs).get ⟨i, h'⟩).tree = (docs.get ⟨i, h⟩).tree ∧
    ((ensure_descriptions descOf docs).get ⟨i, h'⟩).json_file = (docs.get ⟨i, h⟩).json_file ∧
    (jsonTruthy (docs.get ⟨i, h⟩).doc_description = true →
      (ensure_descriptions descOf docs).get ⟨i, h'⟩ = docs.get ⟨i, h⟩) ∧
    (jsonTruthy (docs.get ⟨i, h⟩).doc_description = false →
      ((ensure_descriptions descOf docs).get ⟨i, h'⟩).doc_description =
        .str (descOf (docs.get ⟨i, h⟩).tree)) := by
  induction docs generalizing i with
  | nil => simp at h
  | cons d rest ih =>
    cases i with
    | zero =>
      by_cases hd : jsonTruthy d.doc_description = true
      · simp [ensure_descriptions, hd]
      · simp [ensure_descriptions, hd]
    | succ m =>
      have hm : m < rest.length := by simpa using h
      have hm' : m < (ensure_descriptions descOf rest).length := by
        simpa [ensure_descriptions_length] using hm
      have := ih m hm hm'
      by_cases hd : jsonTruthy d.doc_description = true
      · simpa [ensure_descriptions, hd] using this
      · simpa [ensure_descriptions, hd] using this

/-- C9: across the embedded run, the document records returned are
exactly those after the description step; that step keeps list length
and order, never touches `doc_name`, `tree` or the backing file, leaves
a record with a truthy description entirely unchanged, and gives a
record with a falsy (absent-at-load or empty) description exactly the
generated description of its own tree. -/
theorem C9_docs_readonly_except_description :
    ∀ (descOf : List Json → String) (docs : List PDoc) (names : List Json)
      (rank : String → List Json),
      (ask_multiple_run descOf names rank docs).1 = ensure_descriptions descOf docs ∧
      (ensure_descriptions descOf docs).length = docs.length ∧
      (∀ (i : Nat) (h : i < docs.length) (h' : i < (ensure_descriptions descOf docs).length),
        ((ensure_descriptions descOf docs).get ⟨i, h'⟩).doc_name = (docs.get ⟨i, h⟩).doc_name ∧
        ((ensure_descriptions descOf docs).get ⟨i, h'⟩).tree = (docs.get ⟨i, h⟩).tree ∧
        ((ensure_descriptions descOf docs).get ⟨i, h'⟩).json_file = (docs.get ⟨i, h⟩).json_file ∧
        (jsonTruthy (docs.get ⟨i, h⟩).doc_description = true →
          (ensure_descriptions descOf docs).get ⟨i, h'⟩ = docs.get ⟨i, h⟩) ∧
        (jsonTruthy (docs.get ⟨i, h⟩).doc_description = false →
          ((ensure_descriptions descOf docs).get ⟨i, h'⟩).doc_description =
            .str (descOf (docs.get ⟨i, h⟩).tree))) := by
  intro descOf docs names rank
  refine ⟨?_, ensure_descriptions_length descOf docs, ensure_descriptions_get descOf docs⟩
  cases names with
  | nil => rfl
  | cons n ns =>
    cases hm : multi_retrieve rank (n :: ns) (ensure_descriptions descOf docs) with
    | nil => simp [ask_multiple_run, hm]
    | cons a as => simp [ask_multiple_run, hm]

theorem C9_witness :
    ((ensure_descriptions (fun _ => "generated") [⟨"a", [], .str "", "fa"⟩]).get
      ⟨0, by simp [ensure_descriptions]⟩).doc_description = .str "generated" ∧
    (ensure_descriptions (fun _ => "generated") [⟨"b", [], .str "kept", "fb"⟩]).get
      ⟨0, by simp [ensure_descriptions]⟩ = ⟨"b", [], .str "kept", "fb"⟩ := by
  constructor
  · exact (C9_docs_readonly_except_description (fun _ => "generated")
      [⟨"a", [], .str "", "fa"⟩] [] (fun _ => [])).2.2 0 (by simp)
      (by simp [ensure_descriptions]) |>.2.2.2.2 (by rfl)
  · exact (C9_docs_readonly_except_description (fun _ => "generated")
      [⟨"b", [], .str "kept", "fb"⟩] [] (fun _ => [])).2.2 0 (by simp)
      (by simp [ensure_descriptions]) |>.2.2.2.1 (by rfl)

theorem searched_docs_unmatched_cons {n : Json} {names : List Json} {docs : List PDoc}
    (h : ∀ d, d ∈ docs → pyEq (.str d.doc_name) n = false) :
    searched_docs (n :: names) docs = searched_docs names docs := by
  induction docs with
  | nil => rfl
  | cons d rest ih =>
    have hd := h d (List.mem_cons_self d rest)
    rw [searched_docs, searched_docs]
    have hin : pyIn (.str d.doc_name) (n :: names) = pyIn (.str d.doc_name) names := by
      rw [pyIn, hd, Bool.false_or]
    rw [hin, ih (fun d' hd' => h d' (List.mem_cons_of_mem d hd'))]

theorem multi_retrieve_unmatched_cons {rank : String → List Json} {n : Json}
    {names : List Json} {docs : List PDoc}
    (h : ∀ d, d ∈ docs → pyEq (.str d.doc_name) n = false) :
    multi_retrieve rank (n :: names) docs = multi_retrieve rank names docs := by
  rw [multi_retrieve_eq, multi_retrieve_eq, searched_docs_unmatched_cons h]

theorem multi_retrieve_rank_congr {rank rank2 : String → List Json}
    {names : List Json} {docs : List PDoc}
    (h : ∀ d, d ∈ searched_docs names docs → rank d.doc_name = rank2 d.doc_name) :
    multi_retrieve rank names docs = multi_retrieve rank2 names docs := by
  rw [multi_retrieve_eq, multi_retrieve_eq]
  congr 1
  apply List.map_congr_left
  intro d hd
  rw [h d hd]

/-- C7: the per-document rank calls of the multi-document flow are
issued exactly for the loaded documents whose `doc_name` occurs in the
selector's answer list — the intersection of selector output and loaded
set, in load order.  A selector name matching no loaded document can be
dropped from the answer without changing either the searched set or the
retrieved items (zero contribution, no failure — the functions are
total), an unselected loaded document is never in the searched set, and
the retrieval result depends on the rank oracle only at searched
documents. -/
theorem C7_rank_only_on_selected :
    ∀ (docs : List PDoc) (names : List Json) (rank : String → List Json),
      multi_retrieve rank names docs =
        ((searched_docs names docs).map (fun d => perDocItems d (rank d.doc_name))).flatten ∧
      searched_docs names docs = docs.filter (fun d => pyIn (.str d.doc_name) names) ∧
      (∀ d, d ∈ docs → pyIn (.str d.doc_name) names = false →
        d ∉ searched_docs names docs) ∧
      (∀ n, (∀ d, d ∈ docs → pyEq (.str d.doc_name) n = false) →
        searched_docs (n :: names) docs = searched_docs names docs ∧
        multi_retrieve rank (n :: names) docs = multi_retrieve rank names docs) ∧
      (∀ rank2 : String → List Json,
        (∀ d, d ∈ searched_docs names docs → rank d.doc_name = rank2 d.doc_name) →
        multi_retrieve rank names docs = multi_retrieve rank2 names docs) := by
  intro docs names rank
  refine ⟨multi_retrieve_eq rank names docs, searched_docs_eq_filter names docs, ?_, ?_, ?_⟩
  · intro d hd hin hmem
    rw [searched_docs_eq_filter] at hmem
    have := (List.mem_filter.mp hmem).2
    rw [hin] at this
    exact Bool.noConfusion this
  · intro n h
    exact ⟨searched_docs_unmatched_cons h, multi_retrieve_unmatched_cons h⟩
  · intro rank2 h
    exact multi_retrieve_rank_congr h

/-- Two loaded documents used to witness C7 (Scenario D). -/
def w7DocA : PDoc := ⟨"docA", w1Tree, .str "a", "fa"⟩

/-- Second witness document. -/
def w7DocB : PDoc := ⟨"docB", w1Tree, .str "b", "fb"⟩

theorem C7_witness :
    searched_docs [Json.str "docB"] [w7DocA, w7DocB] =
      [w7DocA, w7DocB].filter (fun d => pyIn (.str d.doc_name) [Json.str "docB"]) ∧
    w7DocA ∉ searched_docs [Json.str "docB"] [w7DocA, w7DocB] ∧
    searched_docs [Json.str "docC", Json.str "docB"] [w7DocA, w7DocB] =
      searched_docs [Json.str "docB"] [w7DocA, w7DocB] := by
  refine ⟨(C7_rank_only_on_selected [w7DocA, w7DocB] [Json.str "docB"] (fun _ => [])).2.1, ?_, ?_⟩
  · apply (C7_rank_only_on_selected [w7DocA, w7DocB] [Json.str "docB"] (fun _ => [])).2.2.1
      w7DocA (by simp)
    simp [w7DocA, pyIn, pyEq]
  · apply ((C7_rank_only_on_selected [w7DocA, w7DocB] [Json.str "docB"]
      (fun _ => [])).2.2.2.1 (Json.str "docC") ?_).1
    intro d hd
    rcases List.mem_cons.mp hd with rfl | hd'
    · simp [w7DocA, pyEq]
    · rcases List.mem_singleton.mp hd' with rfl
      simp [w7DocB, pyEq]

theorem pyTake_length_of_gt {s : String} (h : 500 < s.data.length) :
    (pyTake 500 s).data.length = 500 := by
  simp [pyTake, List.length_take] at h ⊢
  omega

theorem pyTake_ne_of_gt {s : String} (h : 500 < s.data.length) :
    pyTake 500 s ≠ s := by
  intro he
  have hlen := congrArg (fun t => t.data.length) he
  simp [pyTake, List.length_take] at hlen h
  omega

theorem contextPart_truncates {it : RItem} {s : String} (hts : it.text = .str s) :
    contextPart it = partHead it ++ pyTake 500 s ++ "..." := by
  rw [contextPart, hts]
  rfl

theorem multiContext_contains {items : List RItem} {it : RItem} (h : it ∈ items) :
    ∃ a b, multiContext items = a ++ contextPart it ++ b :=
  pyJoin_of_mem (List.mem_map_of_mem contextPart h) "\n\n"

/-- C5: in the multi-document flow the retrieved items carry the full
resolved node text — each item's `text` is exactly `get_node_text` of a
node found in a loaded document's tree, with no slicing at retrieval
time — and the 500-character cut happens only when the synthesis
context is assembled: an item whose text is a string longer than 500
characters contributes its label followed by exactly the first 500
characters of that text and a literal ellipsis, and that truncated
section appears in the assembled context.  (The pruning step is
unrelated: it strips `text` fields from the tree copy shown to the
rank oracle and never touches the items.) -/
theorem C5_truncate_only_at_assembly :
    ∀ (rank : String → List Json) (names : List Json) (docs : List PDoc),
      (∀ it, it ∈ multi_retrieve rank names docs →
        ∃ d id node, d ∈ docs ∧ id ∈ rank d.doc_name ∧
          find_node_by_id id d.tree = some node ∧
          it.doc_name = d.doc_name ∧ it.text = get_node_text node ∧
          jsonTruthy it.text = true) ∧
      (∀ it s, it ∈ multi_retrieve rank names docs → it.text = .str s →
        500 < s.data.length →
          contextPart it = partHead it ++ pyTake 500 s ++ "..." ∧
          (pyTake 500 s).data.length = 500 ∧
          containsSub (multiContext (multi_retrieve rank names docs))
            (pyTake 500 s ++ "...")) := by
  intro rank names docs
  constructor
  · intro it hit
    obtain ⟨d, hd, _, hmem⟩ := mem_multi_retrieve hit
    rw [perDocItems_eq_filterMap] at hmem
    obtain ⟨id, hid, hsome⟩ := List.mem_filterMap.mp hmem
    obtain ⟨node, hfind, _, h2, heq⟩ := itemForDoc_inv hsome
    exact ⟨d, id, node, hd, hid, hfind, by rw [heq], by rw [heq], by rw [heq]; exact h2⟩
  · intro it s hit hts hlen
    refine ⟨contextPart_truncates hts, pyTake_length_of_gt hlen, ?_⟩
    obtain ⟨a, b, hab⟩ := multiContext_contains hit
    refine ⟨a ++ partHead it, b, ?_⟩
    rw [hab, contextPart_truncates hts]
    simp [String.append_assoc]

/-- A 501-character text used to witness the truncation claims. -/
def longText : String := String.mk (List.replicate 501 'a')

/-- One-node tree whose text exceeds the preview budget. -/
def w5Tree : List Json :=
  [Json.obj [("node_id", .str "1"), ("title", .str "T"), ("text", .str longText)]]

/-- Loaded document over `w5Tree`. -/
def w5Doc : PDoc := ⟨"docA", w5Tree, .str "d", "f"⟩

/-- The item the multi-document flow retrieves from `w5Doc`. -/
def w5Item : RItem := ⟨"docA", .str "T", .str longText⟩

theorem longText_len : longText.data.length = 501 := by
  rw [longText]
  exact List.length_replicate 501 'a'

theorem longText_ne : longText ≠ "" := by
  intro h
  have h0 : longText.data.length = 0 := by rw [h]; rfl
  rw [longText_len] at h0
  exact absurd h0 (by omega)

theorem w5_find : find_node_by_id (Json.str "1") w5Tree =
    some (Json.obj [("node_id", .str "1"), ("title", .str "T"), ("text", .str longText)]) := by
  simp [find_node_by_id, w5Tree, childrenOf, lookupJ, pyEq]

theorem longText_truthy : jsonTruthy (Json.str longText) = true := by
  simp [jsonTruthy]
  exact longText_ne

theorem w5_get : get_node_text
    (Json.obj [("node_id", .str "1"), ("title", .str "T"), ("text", .str longText)]) =
    .str longText := by
  simp [get_node_text, lookupJ, longText_truthy]

theorem w5_items : perDocItems w5Doc [Json.str "1"] = [w5Item] := by
  have hbe : (longText == "") = false := beq_eq_false_iff_ne.mpr longText_ne
  simp [perDocItems, w5Doc, w5_find, w5_get, jsonTruthy, hbe, w5Item, dGetD, lookupJ]

theorem w5_run : multi_retrieve (fun _ => [Json.str "1"]) [Json.str "docA"] [w5Doc] = [w5Item] := by
  have hdn : w5Doc.doc_name = "docA" := rfl
  simp [multi_retrieve, pyIn, pyEq, hdn, w5_items]

theorem C5_witness :
    contextPart w5Item = partHead w5Item ++ pyTake 500 longText ++ "..." ∧
    (pyTake 500 longText).data.length = 500 ∧
    containsSub (multiContext (multi_retrieve (fun _ => [Json.str "1"])
      [Json.str "docA"] [w5Doc])) (pyTake 500 longText ++ "...") := by
  have hmem : w5Item ∈ multi_retrieve (fun _ => [Json.str "1"]) [Json.str "docA"] [w5Doc] := by
    rw [w5_run]
    exact List.mem_singleton.mpr rfl
  exact (C5_truncate_only_at_assembly (fun _ => [Json.str "1"]) [Json.str "docA"]
    [w5Doc]).2 w5Item longText hmem rfl (by rw [longText_len]; omega)

/-- C10: the single-document flow applies no preview budget: whenever
an id of the oracle list resolves to a node whose text resolves to a
non-empty string, that string appears in the assembled synthesis
context in full, whatever its length; by contrast the multi-document
context section for an item with the same text keeps only its first
500 characters (a strict cut whenever the text is longer than 500), so
the two assembled contexts differ for such texts. -/
theorem C10_single_flow_untruncated :
    ∀ (tree node_list : List Json) (id node : Json) (t : String),
      (id ∈ node_list → find_node_by_id id tree = some node →
        jsonTruthy node = true → get_node_text node = .str t → t ≠ "" →
        containsSub (singleContext tree node_list) t) ∧
      (∀ it : RItem, ∀ s : String, it.text = .str s → 500 < s.data.length →
        contextPart it = partHead it ++ pyTake 500 s ++ "..." ∧ pyTake 500 s ≠ s) := by
  intro tree node_list id node t
  constructor
  · intro hid hfind htr hget hne
    have httext : jsonTruthy (get_node_text node) = true := by
      rw [hget]
      simp [jsonTruthy]
      exact hne
    have hst : jsonTruthy (Json.str t) = true := hget ▸ httext
    have hitem : itemFor tree id = some (fmtItem node (.str t)) := by
      simp [itemFor, hfind, htr, hget, hst]
    have hmem : fmtItem node (.str t) ∈ retrieve_loop tree node_list := by
      rw [retrieve_loop_eq_filterMap]
      exact List.mem_filterMap.mpr ⟨id, hid, hitem⟩
    obtain ⟨a, b, hab⟩ := pyJoin_of_mem hmem "\n\n"
    refine ⟨a ++ ("## " ++ pyStr (dGetD node "title" (.str "Untitled")) ++ "\n\n"), b, ?_⟩
    rw [singleContext, hab]
    simp [fmtItem, pyStr, String.append_assoc]
  · intro it s hts hlen
    exact ⟨contextPart_truncates hts, pyTake_ne_of_gt hlen⟩

theorem C10_witness :
    containsSub (singleContext w5Tree [Json.str "1"]) longText ∧
    pyTake 500 longText ≠ longText := by
  constructor
  · exact (C10_single_flow_untruncated w5Tree [Json.str "1"] (Json.str "1")
      (Json.obj [("node_id", .str "1"), ("title", .str "T"), ("text", .str longText)])
      longText).1 (List.mem_singleton.mpr rfl) w5_find rfl w5_get longText_ne
  · exact ((C10_single_flow_untruncated [] [] .null .null "").2 w5Item longText rfl
      (by rw [longText_len]; omega)).2
